import Mathlib

/-! The Tailwind configuration of the portfolio site.

A shallow embedding of `src/app/tailwind.config.js`: the exported object, its
design tokens and the `typography` callback, followed by the properties the
specification states about them.

JavaScript objects are association lists in source order (an object literal
keeps the insertion order of its string keys).
-/

namespace TailwindConfig

/-- A JavaScript value as far as this configuration and a theme lookup hold one.
Numbers are the integer-valued ones; the callback never inspects a value it
looked up. -/
inductive JsVal where
  | undefined : JsVal
  | null : JsVal
  | bool (b : Bool) : JsVal
  | num (n : Int) : JsVal
  | str (s : String) : JsVal
  | arr (items : List JsVal) : JsVal
  | obj (props : List (String × JsVal)) : JsVal

/-- Own enumerable string keys of a value, in insertion order
(`Object.keys`); a value that is no object has none. -/
def JsVal.keys : JsVal → List String
  | .obj props => props.map Prod.fst
  | _ => []

/-- Property access `v[k]`, with `none` for a key the object does not have. -/
def JsVal.getProp (v : JsVal) (k : String) : Option JsVal :=
  match v with
  | .obj props => (props.find? (fun kv => kv.1 == k)).map Prod.snd
  | _ => none

/-- What the build tool hands to a theme callback: the callback destructures
`theme` out of it, a lookup from a dotted path to a value. -/
structure Utils where
  theme : String → JsVal

/-- Lines 10-16: `theme.extend.colors`. -/
def colors : JsVal :=
  .obj [
    ("htb-green", .str "#9fef00"),
    ("htb-cyan", .str "#00d9ff"),
    ("htb-dark", .str "#0a0e14"),
    ("htb-darker", .str "#050810"),
    ("htb-gray", .str "#1a1f2e")
  ]

/-- Lines 17-19: `theme.extend.fontFamily`. -/
def fontFamily : JsVal :=
  .obj [
    ("mono", .arr [.str "JetBrains Mono", .str "Fira Code", .str "Courier New", .str "monospace"])
  ]

/-- Lines 20-35: `theme.extend.typography`, the arrow function
`(\x7b theme \x7d) => (...)`. -/
def typography (utils : Utils) : JsVal :=
  let theme := utils.theme
  .obj [
    ("invert", .obj [
      ("css", .obj [
        ("--tw-prose-body", theme "colors.gray.300"),
        ("--tw-prose-headings", theme "colors.white"),
        ("--tw-prose-links", theme "colors.htb-green"),
        ("--tw-prose-bold", theme "colors.white"),
        ("--tw-prose-quotes", theme "colors.gray.200"),
        ("--tw-prose-quote-borders", theme "colors.htb-cyan"),
        ("--tw-prose-code", theme "colors.gray.100"),
        ("--tw-prose-pre-bg", theme "colors.gray.900"),
        ("a:hover", .obj [("color", theme "colors.htb-cyan")]),
        ("h1,h2,h3", .obj [("scroll-margin-top", .str "96px")])
      ])
    ])
  ]

/-- Lines 3-7: `content`. -/
def content : JsVal :=
  .arr [
    .str "./home/templates/**/*.html",
    .str "./templates/**/*.html",
    .str "./home/templates/**/*.js"
  ]

/-- A value of the exported object: plain data, a theme callback, the module a
`require(...)` call loads, or an array or object of such values. -/
inductive ConfigVal where
  | data (v : JsVal) : ConfigVal
  | callback (f : Utils → JsVal) : ConfigVal
  | required (module : String) : ConfigVal
  | arr (items : List ConfigVal) : ConfigVal
  | obj (props : List (String × ConfigVal)) : ConfigVal

/-- Own string keys in insertion order; plain data that is an object has the
keys of that object. -/
def ConfigVal.keys : ConfigVal → List String
  | .obj props => props.map Prod.fst
  | .data v => v.keys
  | _ => []

/-- Property access on an object of the configuration. -/
def ConfigVal.getProp (c : ConfigVal) (k : String) : Option ConfigVal :=
  match c with
  | .obj props => (props.find? (fun kv => kv.1 == k)).map Prod.snd
  | .data v => (v.getProp k).map ConfigVal.data
  | _ => none

/-- Lines 9-36: `theme.extend`. -/
def extend : ConfigVal :=
  .obj [
    ("colors", .data colors),
    ("fontFamily", .data fontFamily),
    ("typography", .callback typography)
  ]

/-- Lines 8-37: `theme`. -/
def theme : ConfigVal :=
  .obj [("extend", extend)]

/-- Line 38: `plugins`. -/
def plugins : ConfigVal :=
  .arr [.required "@tailwindcss/typography"]

/-- Lines 2-39: the object assigned to `module.exports`. -/
def moduleExports : ConfigVal :=
  .obj [
    ("content", .data content),
    ("theme", theme),
    ("plugins", plugins)
  ]

/-! ## The callback with its lookups made observable -/

/-- Lines 20-35 again, with the lookup as an effectful call: the property
values of an object literal are evaluated in source order, so the nine calls of
`theme` happen top to bottom. -/
def typographyM {m : Type → Type} [Monad m] (theme : String → m JsVal) : m JsVal := do
  let body ← theme "colors.gray.300"
  let headings ← theme "colors.white"
  let links ← theme "colors.htb-green"
  let bold ← theme "colors.white"
  let quotes ← theme "colors.gray.200"
  let quoteBorders ← theme "colors.htb-cyan"
  let code ← theme "colors.gray.100"
  let preBg ← theme "colors.gray.900"
  let hover ← theme "colors.htb-cyan"
  pure (.obj [
    ("invert", .obj [
      ("css", .obj [
        ("--tw-prose-body", body),
        ("--tw-prose-headings", headings),
        ("--tw-prose-links", links),
        ("--tw-prose-bold", bold),
        ("--tw-prose-quotes", quotes),
        ("--tw-prose-quote-borders", quoteBorders),
        ("--tw-prose-code", code),
        ("--tw-prose-pre-bg", preBg),
        ("a:hover", .obj [("color", hover)]),
        ("h1,h2,h3", .obj [("scroll-margin-top", .str "96px")])
      ])
    ])
  ])

/-- A lookup that appends every path it is asked for to a log. -/
def recording (lookup : String → JsVal) (path : String) : StateM (List String) JsVal :=
  fun log => (lookup path, log ++ [path])

/-- The paths the callback passes to the lookup, in call order. -/
def lookedUp (lookup : String → JsVal) : List String :=
  ((typographyM (recording lookup)).run []).2

/-! ## Vocabulary of the specification -/

/-- The strings of an array of strings. -/
def JsVal.asStrings : JsVal → Option (List String)
  | .arr items => items.mapM (fun v => match v with | .str s => some s | _ => none)
  | _ => none

/-- The string `s` starts with `pre`. -/
def startsWith (s pre : String) : Bool :=
  pre.toList.isPrefixOf s.toList

/-- The string `s` ends with `suf`. -/
def endsWith (s suf : String) : Bool :=
  suf.toList.isSuffixOf s.toList

/-- A hexadecimal digit, in either case. -/
def isHexDigit (c : Char) : Bool :=
  c.isDigit || ('a' ≤ c && c ≤ 'f') || ('A' ≤ c && c ≤ 'F')

/-- A `#` followed by exactly six hexadecimal digits. -/
def isHexColor (s : String) : Bool :=
  match s.toList with
  | '#' :: digits => digits.length == 6 && digits.all isHexDigit
  | _ => false

/-- The segments of a dotted path. -/
def pathSegments (path : String) : List String :=
  (path.toList.splitOn '.').map String.mk

/-- The colour a path `colors.<name>...` names: its second segment. -/
def colorName (path : String) : Option String :=
  (pathSegments path).get? 1

/-- The names of the base palette the callback refers to. -/
def basePalette : List String := ["gray", "white"]

/-- The seven distinct paths of lines 23-31. -/
def typographyPaths : List String :=
  ["colors.gray.100", "colors.gray.200", "colors.gray.300", "colors.gray.900",
   "colors.white", "colors.htb-green", "colors.htb-cyan"]

/-- The object under `invert.css` of a callback result. -/
def invertCss (result : JsVal) : Option JsVal :=
  (result.getProp "invert").bind (fun v => v.getProp "css")

/-- Assignment `o[k] = v` on the entries of an object: an existing key keeps its
place and takes the new value, a new key goes last. -/
def setProp : List (String × JsVal) → String → JsVal → List (String × JsVal)
  | [], k, v => [(k, v)]
  | (k', v') :: rest, k, v =>
    if k' = k then (k', v) :: rest else (k', v') :: setProp rest k v

/-- Modelled from the spec: the build tool's merge of an `extend` map into the
base map of the same name, which is not part of this repository; the entries of
`ext` are added to `base` one key at a time, in order. -/
def mergeExtend (base ext : JsVal) : JsVal :=
  match base, ext with
  | .obj b, .obj e => .obj (e.foldl (fun acc kv => setProp acc kv.1 kv.2) b)
  | _, _ => base

/-! ## Sample inputs -/

/-- Witness lookup: the five colours of the configuration, `undefined`
elsewhere. -/
def extendOnlyLookup (path : String) : JsVal :=
  if path = "colors.htb-green" then .str "#9fef00"
  else if path = "colors.htb-cyan" then .str "#00d9ff"
  else if path = "colors.htb-dark" then .str "#0a0e14"
  else if path = "colors.htb-darker" then .str "#050810"
  else if path = "colors.htb-gray" then .str "#1a1f2e"
  else .undefined

/-- Witness lookup: as `extendOnlyLookup`, except on a font path the callback
never asks for. -/
def otherLookup (path : String) : JsVal :=
  if path = "fontFamily.mono" then .str "monospace" else extendOnlyLookup path

/-- Witness base map: two colours of a default palette. -/
def sampleBase : List (String × JsVal) :=
  [("white", .str "#fff"), ("black", .str "#000")]

/-! ## Helper lemmas -/

/-- The callback with a recording lookup returns what the plain callback
returns and appends its nine paths, in source order, to the log. -/
theorem typographyM_recording (lookup : String → JsVal) (log : List String) :
    (typographyM (recording lookup)).run log =
      (typography ⟨lookup⟩,
        log ++ ["colors.gray.300", "colors.white", "colors.htb-green", "colors.white",
          "colors.gray.200", "colors.htb-cyan", "colors.gray.100", "colors.gray.900",
          "colors.htb-cyan"]) := by
  simp [typographyM, recording, typography, StateT.run, bind, StateT.bind, pure, StateT.pure]

/-- In the identity monad the effectful reading of the callback is the callback. -/
theorem typographyM_id (lookup : String → JsVal) :
    Id.run (typographyM (m := Id) lookup) = typography ⟨lookup⟩ := rfl

/-- The paths looked up, whatever the lookup. -/
theorem lookedUp_eq (lookup : String → JsVal) :
    lookedUp lookup =
      ["colors.gray.300", "colors.white", "colors.htb-green", "colors.white",
        "colors.gray.200", "colors.htb-cyan", "colors.gray.100", "colors.gray.900",
        "colors.htb-cyan"] := by
  simp [lookedUp, typographyM_recording]

/-- Assigning a key the entries do not have appends it. -/
theorem setProp_fresh (props : List (String × JsVal)) (k : String) (v : JsVal)
    (hk : k ∉ props.map Prod.fst) : setProp props k v = props ++ [(k, v)] := by
  induction props with
  | nil => rfl
  | cons kv rest ih =>
    obtain ⟨k', v'⟩ := kv
    simp only [List.map_cons, List.mem_cons, not_or] at hk
    have hne : ¬ k' = k := fun e => hk.1 e.symm
    simp [setProp, hne, ih hk.2]

/-- Looking a key up in appended entries: an entry of the front part wins. -/
theorem find_append_front (front back : List (String × JsVal)) (k : String)
    (kv : String × JsVal) (h : front.find? (fun e => e.1 == k) = some kv) :
    (front ++ back).find? (fun e => e.1 == k) = some kv := by
  induction front with
  | nil => simp at h
  | cons e rest ih =>
    by_cases he : (e.1 == k) = true
    · simp only [List.cons_append, List.find?_cons, he] at h ⊢
      exact h
    · simp only [List.cons_append, List.find?_cons, he] at h ⊢
      exact ih h

/-- Looking a key up in appended entries: a key the front part lacks is looked
up in the back part. -/
theorem find_append_back (front back : List (String × JsVal)) (k : String)
    (hk : k ∉ front.map Prod.fst) :
    (front ++ back).find? (fun e => e.1 == k) = back.find? (fun e => e.1 == k) := by
  induction front with
  | nil => rfl
  | cons e rest ih =>
    simp only [List.map_cons, List.mem_cons, not_or] at hk
    have he : ¬ (e.1 == k) = true := fun h => hk.1 (eq_of_beq h).symm
    simp only [List.cons_append, List.find?_cons, he]
    exact ih hk.2

/-- A key that neither part has is not a key of the appended entries. -/
theorem fresh_append (front back : List (String × JsVal)) (k : String)
    (hfront : k ∉ front.map Prod.fst) (hback : k ∉ back.map Prod.fst) :
    k ∉ (front ++ back).map Prod.fst := by
  simp only [List.map_append, List.mem_append, not_or]
  exact ⟨hfront, hback⟩

/-- Merging `theme.extend.colors` into a base map that has none of its keys
appends its five entries. -/
theorem mergeExtend_colors_fresh (base : List (String × JsVal))
    (hfresh : ∀ k ∈ colors.keys, k ∉ (JsVal.obj base).keys) :
    mergeExtend (.obj base) colors =
      .obj (base ++ [("htb-green", .str "#9fef00"), ("htb-cyan", .str "#00d9ff"),
        ("htb-dark", .str "#0a0e14"), ("htb-darker", .str "#050810"),
        ("htb-gray", .str "#1a1f2e")]) := by
  simp only [JsVal.keys] at hfresh
  have h1 := hfresh "htb-green" (by decide)
  have h2 := hfresh "htb-cyan" (by decide)
  have h3 := hfresh "htb-dark" (by decide)
  have h4 := hfresh "htb-darker" (by decide)
  have h5 := hfresh "htb-gray" (by decide)
  have e1 := setProp_fresh base "htb-green" (.str "#9fef00") h1
  have e2 := setProp_fresh (base ++ [("htb-green", .str "#9fef00")]) "htb-cyan"
    (.str "#00d9ff") (fresh_append _ _ _ h2 (by decide))
  have e3 := setProp_fresh
    (base ++ [("htb-green", .str "#9fef00")] ++ [("htb-cyan", .str "#00d9ff")]) "htb-dark"
    (.str "#0a0e14") (fresh_append _ _ _ (fresh_append _ _ _ h3 (by decide)) (by decide))
  have e4 := setProp_fresh
    (base ++ [("htb-green", .str "#9fef00")] ++ [("htb-cyan", .str "#00d9ff")] ++
      [("htb-dark", .str "#0a0e14")]) "htb-darker" (.str "#050810")
    (fresh_append _ _ _ (fresh_append _ _ _ (fresh_append _ _ _ h4 (by decide)) (by decide))
      (by decide))
  have e5 := setProp_fresh
    (base ++ [("htb-green", .str "#9fef00")] ++ [("htb-cyan", .str "#00d9ff")] ++
      [("htb-dark", .str "#0a0e14")] ++ [("htb-darker", .str "#050810")]) "htb-gray"
    (.str "#1a1f2e")
    (fresh_append _ _ _ (fresh_append _ _ _ (fresh_append _ _ _
      (fresh_append _ _ _ h5 (by decide)) (by decide)) (by decide)) (by decide))
  simp only [mergeExtend, colors, List.foldl, e1, e2, e3, e4, e5]
  simp

/-! ## The typography callback -/

/-- C1: for every theme lookup, the object the typography callback returns has
under `invert.css` the eight `--tw-prose-*` custom properties equal to the
lookups of lines 23-30, and `a:hover` has `color` equal to the lookup of
`colors.htb-cyan`. -/
theorem typography_custom_properties (lookup : String → JsVal) :
    ∃ css, invertCss (typography ⟨lookup⟩) = some css ∧
      css.getProp "--tw-prose-body" = some (lookup "colors.gray.300") ∧
      css.getProp "--tw-prose-headings" = some (lookup "colors.white") ∧
      css.getProp "--tw-prose-links" = some (lookup "colors.htb-green") ∧
      css.getProp "--tw-prose-bold" = some (lookup "colors.white") ∧
      css.getProp "--tw-prose-quotes" = some (lookup "colors.gray.200") ∧
      css.getProp "--tw-prose-quote-borders" = some (lookup "colors.htb-cyan") ∧
      css.getProp "--tw-prose-code" = some (lookup "colors.gray.100") ∧
      css.getProp "--tw-prose-pre-bg" = some (lookup "colors.gray.900") ∧
      (css.getProp "a:hover").bind (fun hover => hover.getProp "color") =
        some (lookup "colors.htb-cyan") :=
  ⟨_, rfl, rfl, rfl, rfl, rfl, rfl, rfl, rfl, rfl, rfl⟩

/-- C2: when the lookup resolves `colors.<name>` to the value
`theme.extend.colors` gives `<name>`, for every key `<name>` of it, the callback
produces `--tw-prose-links` = `#9fef00`, `--tw-prose-quote-borders` = `#00d9ff`
and `a:hover`.`color` = `#00d9ff`; nothing is assumed about other paths. -/
theorem typography_resolved_colors (lookup : String → JsVal)
    (h : ∀ name v, colors.getProp name = some v → lookup ("colors." ++ name) = v) :
    ∃ css, invertCss (typography ⟨lookup⟩) = some css ∧
      css.getProp "--tw-prose-links" = some (.str "#9fef00") ∧
      css.getProp "--tw-prose-quote-borders" = some (.str "#00d9ff") ∧
      (css.getProp "a:hover").bind (fun hover => hover.getProp "color") =
        some (.str "#00d9ff") := by
  have hgreen : lookup "colors.htb-green" = .str "#9fef00" := h "htb-green" _ rfl
  have hcyan : lookup "colors.htb-cyan" = .str "#00d9ff" := h "htb-cyan" _ rfl
  refine ⟨_, rfl, ?_, ?_, ?_⟩
  · exact congrArg some hgreen
  · exact congrArg some hcyan
  · exact congrArg some hcyan

/-- The witness lookup resolves each colour of the configuration. -/
theorem extendOnlyLookup_resolves (name : String) (v : JsVal)
    (hv : colors.getProp name = some v) : extendOnlyLookup ("colors." ++ name) = v := by
  simp only [colors, JsVal.getProp, List.find?] at hv
  split at hv
  · next hk => cases (eq_of_beq hk); simpa using hv
  · split at hv
    · next hk => cases (eq_of_beq hk); simpa using hv
    · split at hv
      · next hk => cases (eq_of_beq hk); simpa using hv
      · split at hv
        · next hk => cases (eq_of_beq hk); simpa using hv
        · split at hv
          · next hk => cases (eq_of_beq hk); simpa using hv
          · simp at hv

/-- Witness of C2 at the lookup that knows only the five extension colours. -/
theorem typography_resolved_colors_witness :
    (∀ name v, colors.getProp name = some v → extendOnlyLookup ("colors." ++ name) = v) ∧
    ∃ css, invertCss (typography ⟨extendOnlyLookup⟩) = some css ∧
      css.getProp "--tw-prose-links" = some (.str "#9fef00") ∧
      css.getProp "--tw-prose-quote-borders" = some (.str "#00d9ff") ∧
      (css.getProp "a:hover").bind (fun hover => hover.getProp "color") =
        some (.str "#00d9ff") :=
  ⟨extendOnlyLookup_resolves,
    typography_resolved_colors extendOnlyLookup extendOnlyLookup_resolves⟩

/-- C3: the callback is a pure function of the lookup. Two lookups that agree on
the seven paths of lines 23-31 give equal objects; and two successive calls with
the same lookup, the second one made after the first has had its effect on the
log of the lookup, return the same object. -/
theorem typography_pure :
    (∀ l₁ l₂ : String → JsVal, (∀ p ∈ typographyPaths, l₁ p = l₂ p) →
      typography ⟨l₁⟩ = typography ⟨l₂⟩) ∧
    (∀ (l : String → JsVal) (log : List String),
      ((typographyM (recording l) >>= fun first =>
          typographyM (recording l) >>= fun second =>
            (pure (first, second) : StateM (List String) (JsVal × JsVal))).run log).1 =
        (typography ⟨l⟩, typography ⟨l⟩)) := by
  constructor
  · intro l₁ l₂ h
    have h100 := h "colors.gray.100" (by simp [typographyPaths])
    have h200 := h "colors.gray.200" (by simp [typographyPaths])
    have h300 := h "colors.gray.300" (by simp [typographyPaths])
    have h900 := h "colors.gray.900" (by simp [typographyPaths])
    have hwhite := h "colors.white" (by simp [typographyPaths])
    have hgreen := h "colors.htb-green" (by simp [typographyPaths])
    have hcyan := h "colors.htb-cyan" (by simp [typographyPaths])
    simp only [typography, h100, h200, h300, h900, hwhite, hgreen, hcyan]
  · intro l log
    have h₁ := typographyM_recording l log
    have h₂ := typographyM_recording l
    simp only [StateT.run] at h₁ h₂
    simp [StateT.run, bind, StateT.bind, pure, StateT.pure, h₁, h₂]

/-- Witness of C3: two lookups that differ on `fontFamily.mono` and agree on the
seven paths. -/
theorem typography_pure_witness :
    (∀ p ∈ typographyPaths, extendOnlyLookup p = otherLookup p) ∧
    extendOnlyLookup "fontFamily.mono" ≠ otherLookup "fontFamily.mono" ∧
    typography ⟨extendOnlyLookup⟩ = typography ⟨otherLookup⟩ :=
  have hagree : ∀ p ∈ typographyPaths, extendOnlyLookup p = otherLookup p := by
    intro p hp
    simp only [typographyPaths, List.mem_cons, List.mem_singleton, List.not_mem_nil,
      or_false] at hp
    rcases hp with rfl | rfl | rfl | rfl | rfl | rfl | rfl <;> rfl
  ⟨hagree, by simp [extendOnlyLookup, otherLookup],
    typography_pure.1 extendOnlyLookup otherLookup hagree⟩

/-- C8: whatever the lookup, the returned object has the single key `invert`,
which holds the single key `css`, whose object has exactly ten keys: the eight
`--tw-prose-*` properties, `a:hover` and `h1,h2,h3`; and `h1,h2,h3` is the
object with the one entry `scroll-margin-top` = `96px`. -/
theorem typography_shape (lookup : String → JsVal) :
    (typography ⟨lookup⟩).keys = ["invert"] ∧
    ∃ inv, (typography ⟨lookup⟩).getProp "invert" = some inv ∧
      inv.keys = ["css"] ∧
      ∃ css, inv.getProp "css" = some css ∧
        css.keys =
          ["--tw-prose-body", "--tw-prose-headings", "--tw-prose-links", "--tw-prose-bold",
            "--tw-prose-quotes", "--tw-prose-quote-borders", "--tw-prose-code",
            "--tw-prose-pre-bg", "a:hover", "h1,h2,h3"] ∧
        css.keys.length = 10 ∧ css.keys.Nodup ∧
        css.getProp "h1,h2,h3" = some (.obj [("scroll-margin-top", .str "96px")]) := by
  refine ⟨rfl, _, rfl, rfl, _, rfl, rfl, rfl, ?_, rfl⟩
  show List.Nodup ["--tw-prose-body", "--tw-prose-headings", "--tw-prose-links",
    "--tw-prose-bold", "--tw-prose-quotes", "--tw-prose-quote-borders", "--tw-prose-code",
    "--tw-prose-pre-bg", "a:hover", "h1,h2,h3"]
  decide

/-- C9: every path the callback passes to the lookup starts with `colors.`, and
the colour it names is either of the base palette (`gray`, `white`) or a key of
`theme.extend.colors`; the two custom colours looked up, `htb-green` and
`htb-cyan`, are keys of `theme.extend.colors`. -/
theorem typography_lookups_defined (lookup : String → JsVal) :
    (∀ p ∈ lookedUp lookup, startsWith p "colors." = true ∧
      ∃ name, colorName p = some name ∧ (name ∉ basePalette → name ∈ colors.keys)) ∧
    "colors.htb-green" ∈ lookedUp lookup ∧ "colors.htb-cyan" ∈ lookedUp lookup ∧
    "htb-green" ∈ colors.keys ∧ "htb-cyan" ∈ colors.keys := by
  rw [lookedUp_eq]
  refine ⟨?_, by decide, by decide, by decide, by decide⟩
  intro p hp
  simp only [List.mem_cons, List.mem_singleton, List.not_mem_nil, or_false] at hp
  rcases hp with rfl | rfl | rfl | rfl | rfl | rfl | rfl | rfl | rfl
  · exact ⟨by decide, "gray", by decide, fun hn => absurd (by decide) hn⟩
  · exact ⟨by decide, "white", by decide, fun hn => absurd (by decide) hn⟩
  · exact ⟨by decide, "htb-green", by decide, fun _ => by decide⟩
  · exact ⟨by decide, "white", by decide, fun hn => absurd (by decide) hn⟩
  · exact ⟨by decide, "gray", by decide, fun hn => absurd (by decide) hn⟩
  · exact ⟨by decide, "htb-cyan", by decide, fun _ => by decide⟩
  · exact ⟨by decide, "gray", by decide, fun hn => absurd (by decide) hn⟩
  · exact ⟨by decide, "gray", by decide, fun hn => absurd (by decide) hn⟩
  · exact ⟨by decide, "htb-cyan", by decide, fun _ => by decide⟩

/-! ## The design tokens and the exported object -/

/-- C4: `theme.extend.colors` has five entries, and the value of each is a
string made of `#` and exactly six hexadecimal digits. -/
theorem colors_hexadecimal :
    colors.keys = ["htb-green", "htb-cyan", "htb-dark", "htb-darker", "htb-gray"] ∧
    colors.keys.length = 5 ∧
    ∀ name ∈ colors.keys, ∃ s, colors.getProp name = some (.str s) ∧ isHexColor s = true := by
  refine ⟨rfl, rfl, ?_⟩
  intro name hname
  simp only [colors, JsVal.keys, List.map_cons, List.map_nil, List.mem_cons,
    List.mem_singleton, List.not_mem_nil, or_false] at hname
  rcases hname with rfl | rfl | rfl | rfl | rfl
  · exact ⟨"#9fef00", rfl, by decide⟩
  · exact ⟨"#00d9ff", rfl, by decide⟩
  · exact ⟨"#0a0e14", rfl, by decide⟩
  · exact ⟨"#050810", rfl, by decide⟩
  · exact ⟨"#1a1f2e", rfl, by decide⟩

/-- C5: the theme object has the single key `extend`, under which `colors` is
the colour map of lines 10-16; and for every base colour map with none of the
five `htb-*` keys, merging `theme.extend.colors` into it keeps every base entry
with its value, keeps the base keys in place and adds exactly the five keys,
each with the value `theme.extend.colors` gives it. -/
theorem extend_only_adds (base : List (String × JsVal))
    (hfresh : ∀ k ∈ colors.keys, k ∉ (JsVal.obj base).keys) :
    theme.keys = ["extend"] ∧
    (theme.getProp "extend").bind (fun e => e.getProp "colors") = some (.data colors) ∧
    (∀ k v, (JsVal.obj base).getProp k = some v →
      (mergeExtend (.obj base) colors).getProp k = some v) ∧
    (mergeExtend (.obj base) colors).keys =
      (JsVal.obj base).keys ++
        ["htb-green", "htb-cyan", "htb-dark", "htb-darker", "htb-gray"] ∧
    (∀ k ∈ colors.keys, (mergeExtend (.obj base) colors).getProp k = colors.getProp k) := by
  rw [mergeExtend_colors_fresh base hfresh]
  refine ⟨rfl, rfl, ?_, ?_, ?_⟩
  · intro k v hv
    simp only [JsVal.getProp] at hv ⊢
    cases hfind : base.find? (fun e => e.1 == k) with
    | none => simp [hfind] at hv
    | some kv =>
      rw [find_append_front _ _ _ _ hfind]
      rw [hfind] at hv
      exact hv
  · simp [JsVal.keys]
  · intro k hk
    have hk' := hfresh k hk
    simp only [JsVal.keys] at hk'
    simp only [JsVal.getProp, colors, find_append_back _ _ _ hk']

/-- Witness of C5 at a base map with the two keys `white` and `black`. -/
theorem extend_only_adds_witness :
    (∀ k ∈ colors.keys, k ∉ (JsVal.obj sampleBase).keys) ∧
    (mergeExtend (.obj sampleBase) colors).keys =
      ["white", "black", "htb-green", "htb-cyan", "htb-dark", "htb-darker", "htb-gray"] ∧
    (mergeExtend (.obj sampleBase) colors).getProp "white" = some (.str "#fff") :=
  have hfresh : ∀ k ∈ colors.keys, k ∉ (JsVal.obj sampleBase).keys := by decide
  ⟨hfresh, (extend_only_adds sampleBase hfresh).2.2.2.1,
    (extend_only_adds sampleBase hfresh).2.2.1 "white" _ rfl⟩

/-- C6: the font-family map has the one alias `mono`, sent to the list
`JetBrains Mono`, `Fira Code`, `Courier New`, `monospace` in that order; the
list is non-empty, repeats no name and ends in `monospace`. -/
theorem fontFamily_mono :
    (theme.getProp "extend").bind (fun e => e.getProp "fontFamily") =
      some (.data fontFamily) ∧
    fontFamily.keys = ["mono"] ∧
    ∃ fonts, (fontFamily.getProp "mono").bind JsVal.asStrings = some fonts ∧
      fonts = ["JetBrains Mono", "Fira Code", "Courier New", "monospace"] ∧
      fonts ≠ [] ∧ fonts.Nodup ∧ fonts.getLast? = some "monospace" :=
  ⟨rfl, rfl, ["JetBrains Mono", "Fira Code", "Courier New", "monospace"], rfl, rfl,
    by decide, by decide, rfl⟩

/-- C7: the exported object has exactly the three keys `content`, `theme` and
`plugins`; `content` is an array of three strings, pairwise distinct, each
starting with `./` and ending with `/**/*.html` or `/**/*.js`. -/
theorem moduleExports_shape :
    moduleExports.keys = ["content", "theme", "plugins"] ∧
    moduleExports.getProp "content" = some (.data content) ∧
    ∃ globs, content.asStrings = some globs ∧ globs.length = 3 ∧ globs.Nodup ∧
      ∀ g ∈ globs, startsWith g "./" = true ∧
        (endsWith g "/**/*.html" = true ∨ endsWith g "/**/*.js" = true) :=
  ⟨rfl, rfl,
    ["./home/templates/**/*.html", "./templates/**/*.html", "./home/templates/**/*.js"],
    rfl, rfl, by decide, by decide⟩

end TailwindConfig
